import Mathlib

/-!
Verification development for the ubgpsuite core (MRT/BGP codec, Patricia trie,
filter virtual machine).  The C sources are shallowly embedded: machine bytes
are natural numbers below 256, machine integers are Nat/Int with explicit
wrap-around where the C code can overflow, pointers become list indices or
inductive trees, and fallible operations return Option.  Each claim about the
code is stated and settled as a theorem below the definitions.
-/

/-! ## Network address model (netaddr.h)

The C type netaddr_t is a tagged union: an address family, a prefix length
and 16 bytes of address storage overlaid by byte/u16/u32 views.  We model it
as a family code, a bit length and the list of its 16 bytes (index 0 first).
Comparisons of the overlaid u16/u32 words are embedded as equality of the
underlying bytes, which is exactly what word equality means regardless of
host endianness; where the code reads a u16 *value* (naddrtos) we model the
little-endian host read explicitly.
-/

def AF_UNSPEC : Nat := 0
def AF_INET : Nat := 2
def AF_INET6 : Nat := 10

structure Netaddr where
  family : Nat
  bitlen : Nat
  bytes  : List Nat
deriving DecidableEq

def Netaddr.byte (a : Netaddr) (i : Nat) : Nat := a.bytes.getD i 0

/-- Equality of one byte of two addresses, as used by the u8 view. -/
def byteeqB (a d : Netaddr) (i : Nat) : Bool := a.byte i == d.byte i

/-- Equality of the 16-bit word number w of the overlaid u16 view: the two
underlying bytes are equal. -/
def u16eqB (a d : Netaddr) (w : Nat) : Bool :=
  byteeqB a d (2 * w) && byteeqB a d (2 * w + 1)

/-- Equality of the 32-bit word number w of the overlaid u32 view: the four
underlying bytes are equal. -/
def u32eqB (a d : Netaddr) (w : Nat) : Bool :=
  byteeqB a d (4 * w) && byteeqB a d (4 * w + 1) &&
  byteeqB a d (4 * w + 2) && byteeqB a d (4 * w + 3)

/-- The partial-byte mask of prefixeqwithmask: the C computes
m = ~0u << (8 - (mask & 7)) in 32-bit arithmetic and masks byte i of both
addresses with it. -/
def pmask (mask : Nat) : Nat := (4294967295 <<< (8 - mask % 8)) % 4294967296

/-- Comparison of byte i of both addresses under the partial mask, as in
(addr->bytes[i] & m) == (dest->bytes[i] & m). -/
def partialeqB (a d : Netaddr) (i mask : Nat) : Bool :=
  (a.byte i &&& pmask mask) == (d.byte i &&& pmask mask)

/-- Bodies of the byte-aligned cases of the switch in prefixeqwithmask
(netaddr.h).  Each caseN is the return expression the C executes for
mask = N (and, through fallthrough, for N+1..N+7 after the partial-byte
check).  Note case 56 reproduces the source text verbatim: the last
comparison reads addr->bytes[6] == addr->bytes[6], comparing a byte of the
first address with itself. -/
def case120B (a d : Netaddr) : Bool :=
  u32eqB a d 0 && u32eqB a d 1 && u32eqB a d 2 && u16eqB a d 6 && byteeqB a d 14

def case112B (a d : Netaddr) : Bool :=
  u32eqB a d 0 && u32eqB a d 1 && u32eqB a d 2 && u16eqB a d 6

def case104B (a d : Netaddr) : Bool :=
  u32eqB a d 0 && u32eqB a d 1 && u32eqB a d 2 && byteeqB a d 12

def case96B (a d : Netaddr) : Bool :=
  u32eqB a d 0 && u32eqB a d 1 && u32eqB a d 2

def case88B (a d : Netaddr) : Bool :=
  u32eqB a d 0 && u32eqB a d 1 && u16eqB a d 4 && byteeqB a d 10

def case80B (a d : Netaddr) : Bool :=
  u32eqB a d 0 && u32eqB a d 1 && u16eqB a d 4

def case72B (a d : Netaddr) : Bool :=
  u32eqB a d 0 && u32eqB a d 1 && byteeqB a d 8

def case64B (a d : Netaddr) : Bool :=
  u32eqB a d 0 && u32eqB a d 1

def case56B (a d : Netaddr) : Bool :=
  u32eqB a d 0 && u16eqB a d 2 && (a.byte 6 == a.byte 6)

def case48B (a d : Netaddr) : Bool :=
  u32eqB a d 0 && u16eqB a d 2

def case40B (a d : Netaddr) : Bool :=
  u32eqB a d 0 && byteeqB a d 4

def case32B (a d : Netaddr) : Bool :=
  u32eqB a d 0

def case24B (a d : Netaddr) : Bool :=
  u16eqB a d 0 && byteeqB a d 2

def case16B (a d : Netaddr) : Bool :=
  u16eqB a d 0

def case8B (a d : Netaddr) : Bool :=
  byteeqB a d 0

/-- Embedding of prefixeqwithmask (netaddr.h): the 129-way switch, with the
C fallthrough chains rendered as conjunctions: for a mask of the form
8k + r with 1 ≤ r ≤ 7, the partial byte k is compared under the mask and
then the case-8k body runs. -/
def prefixeqwithmask (a d : Netaddr) (mask : Nat) : Bool :=
  if mask = 128 then
    u32eqB a d 0 && u32eqB a d 1 && u32eqB a d 2 && u32eqB a d 3
  else if 121 ≤ mask then partialeqB a d 15 mask && case120B a d
  else if mask = 120 then case120B a d
  else if 113 ≤ mask then partialeqB a d 14 mask && case112B a d
  else if mask = 112 then case112B a d
  else if 105 ≤ mask then partialeqB a d 13 mask && case104B a d
  else if mask = 104 then case104B a d
  else if 97 ≤ mask then partialeqB a d 12 mask && case96B a d
  else if mask = 96 then case96B a d
  else if 89 ≤ mask then partialeqB a d 11 mask && case88B a d
  else if mask = 88 then case88B a d
  else if 81 ≤ mask then partialeqB a d 10 mask && case80B a d
  else if mask = 80 then case80B a d
  else if 73 ≤ mask then partialeqB a d 9 mask && case72B a d
  else if mask = 72 then case72B a d
  else if 65 ≤ mask then partialeqB a d 8 mask && case64B a d
  else if mask = 64 then case64B a d
  else if 57 ≤ mask then partialeqB a d 7 mask && case56B a d
  else if mask = 56 then case56B a d
  else if 49 ≤ mask then partialeqB a d 6 mask && case48B a d
  else if mask = 48 then case48B a d
  else if 41 ≤ mask then partialeqB a d 5 mask && case40B a d
  else if mask = 40 then case40B a d
  else if 33 ≤ mask then partialeqB a d 4 mask && case32B a d
  else if mask = 32 then case32B a d
  else if 25 ≤ mask then partialeqB a d 3 mask && case24B a d
  else if mask = 24 then case24B a d
  else if 17 ≤ mask then partialeqB a d 2 mask && case16B a d
  else if mask = 16 then case16B a d
  else if 9 ≤ mask then partialeqB a d 1 mask && case8B a d
  else if mask = 8 then case8B a d
  else if 1 ≤ mask then partialeqB a d 0 mask
  else true

/-- Bit number i (big-endian bit order, bit 0 is the most significant bit of
byte 0) of an address. -/
def bitOf (a : Netaddr) (i : Nat) : Nat := (a.byte (i / 8) >>> (7 - i % 8)) &&& 1

/-- Specification-side predicate: the first n bits of the two addresses
agree. -/
def firstBitsEq (a d : Netaddr) (n : Nat) : Prop := ∀ i < n, bitOf a i = bitOf d i

instance (a d : Netaddr) (n : Nat) : Decidable (firstBitsEq a d n) :=
  Nat.decidableBallLT n fun i _ => bitOf a i = bitOf d i

/-- Concrete addresses exhibiting the byte-6 slip in prefixeqwithmask: the
two addresses differ exactly in byte 6 (bits 48..55). -/
def addrZero : Netaddr :=
  { family := AF_INET6, bitlen := 56, bytes := List.replicate 16 0 }

def addrByte6 : Netaddr :=
  { family := AF_INET6, bitlen := 56,
    bytes := [0, 0, 0, 0, 0, 0, 1, 0, 0, 0, 0, 0, 0, 0, 0, 0] }

/-- C2, code bug: prefixeqwithmask is claimed to return true iff the first n
bits of the two addresses agree, but the case-56 body of the switch compares
addr->bytes[6] with itself instead of dest->bytes[6]; on two addresses
differing only in byte 6 and n = 56 the code returns true even though bits
48..55 differ. -/
theorem prefixeqwithmask_byte6_bug :
    prefixeqwithmask addrZero addrByte6 56 = true ∧
    ¬ firstBitsEq addrZero addrByte6 56 := by decide

/-! ## AS-loop detection (bgpgrep/main.c, mrt_find_as_loops)

mrt_find_as_loops collects the reconstructed real AS path into an array
path[0..n) and then scans it for a loop: an AS that reappears at a
non-adjacent position, never counting adjacent duplicates (prepending) nor
AS_TRANS.  We embed the scan over the collected path exactly as written,
including its index bounds (outer loop i from 2 while i < n - 1, inner loop
j from 0 while j < i - 2).  The C counters are unsigned; for an empty path
n - 1 wraps around and the code reads unallocated memory, so the embedding
is faithful for n ≥ 1, which covers every claim below. -/

def AS_TRANS : Nat := 23456

def findAsLoopsHasLoop (path : List Nat) : Bool :=
  let n := path.length
  (List.range (n - 1)).any fun i =>
    if i < 2 then false
    else if path.getD i 0 == path.getD (i - 1) 0 then false
    else if path.getD i 0 == AS_TRANS then false
    else (List.range (i - 2)).any fun j =>
      (path.getD j 0 == path.getD i 0) && (path.getD j 0 != AS_TRANS)

/-- Collapse runs of adjacent duplicates (prepending). -/
def dedupAdj : List Nat → List Nat
  | [] => []
  | [a] => [a]
  | a :: b :: rest => if a == b then dedupAdj (b :: rest) else a :: dedupAdj (b :: rest)

/-- Specification-side loop predicate: after collapsing prepending and
discarding AS_TRANS, some AS occurs twice. -/
def specHasAsLoop (path : List Nat) : Bool :=
  !((dedupAdj path).filter (fun a => a != AS_TRANS)).Nodup

/-- C3, code bug: on the real AS path [1, 2, 3, 2, 4] the spec requires the
loop-detection filter to push true (AS 2 recurs at the non-adjacent
positions 1 and 3), but the inner scan of mrt_find_as_loops stops at
j < i - 2, which excludes position j = i - 2 = 1 when i = 3, and the outer
scan stops at i < n - 1, which excludes the last element; the code therefore
pushes false. -/
theorem find_as_loops_misses_loop :
    findAsLoopsHasLoop [1, 2, 3, 2, 4] = false ∧
    specHasAsLoop [1, 2, 3, 2, 4] = true := by decide

/-! ## Real AS path reconciliation (bgp.c, startrealaspath / nextaspath)

An AS_PATH attribute is a sequence of segments, each a SET or a SEQ of AS
numbers.  startrealaspath counts the ASes of AS_PATH and AS4_PATH (a SET
counts as 1, even when its count byte is 0) and, unless reconciliation is
disabled, arranges for the iteration to emit entries from AS_PATH while a
countdown is non-zero and then to commute to AS4_PATH.  nextaspath reads one
AS at a time, decrementing the countdown for an entry of a SEQ segment or
the first entry of a SET segment; when it reads an entry while the countdown
is zero it discards it and restarts the iteration on AS4_PATH with the
countdown at -1 (which never reaches zero again).  We embed the iteration
by structural recursion over the segment list, with the countdown an Int as
in the C (int ascount). -/

structure AsSeg where
  isSet : Bool
  ases  : List Nat
deriving DecidableEq

/-- AS count of one segment as computed by the counting loops in
startrealaspath: a SET counts 1 (count = 1 overwrites even a zero count
byte), a SEQ counts its number of ASes. -/
def segCount (s : AsSeg) : Nat := if s.isSet then 1 else s.ases.length

/-- AS count of a whole path (ascount / as4count in startrealaspath). -/
def asPathCount (p : List AsSeg) : Nat := (p.map segCount).sum

/-- One emitted as_pathent_t, restricted to the fields the claims compare:
the segment type and the AS number; fst records whether the entry is the
first of its segment (segi == 1 in the C), which drives the countdown. -/
structure AsEnt where
  isSet : Bool
  fst   : Bool
  as    : Nat
deriving DecidableEq

/-- Entries of one segment in emission order. -/
def segEnts (t : Bool) : Bool → List Nat → List AsEnt
  | _, [] => []
  | first, a :: more => ⟨t, first, a⟩ :: segEnts t false more

/-- Entries of a whole path in plain (non-reconciling) iteration order. -/
def flatSegs (p : List AsSeg) : List AsEnt :=
  p.flatMap fun s => segEnts s.isSet true s.ases

/-- Whether reading this entry decrements ascount in nextaspath:
ascount -= (msg->asp.type != AS_SEGMENT_SET || msg->segi == 1). -/
def entCounts (e : AsEnt) : Bool := !e.isSet || e.fst

/-- Number of counting entries of an entry list. -/
def entCount (l : List AsEnt) : Nat := (l.filter entCounts).length

/-- Emission within one segment (the body of nextaspath once the segment
header has been read): while the countdown c is non-zero, emit the entry and
decrement; on an entry read with c = 0, stop and report the commutation
(third component true). -/
def emitSeg (t : Bool) : Bool → List Nat → Int → List AsEnt × Int × Bool
  | _, [], c => ([], c, false)
  | first, a :: more, c =>
      if c = 0 then ([], c, true)
      else
        let d : Int := if t && !first then 0 else 1
        let r := emitSeg t false more (c - d)
        (⟨t, first, a⟩ :: r.1, r.2.1, r.2.2)

/-- Emission over the segment list: read a segment header, emit within the
segment, and either commute (stop, third component true) or continue with
the next segment. -/
def emitSegsFrom : List AsSeg → Int → List AsEnt × Bool
  | [], _ => ([], false)
  | s :: rest, c =>
      let r := emitSeg s.isSet true s.ases c
      if r.2.2 then (r.1, true)
      else
        let r2 := emitSegsFrom rest r.2.1
        (r.1 ++ r2.1, r2.2)

/-- The slice of a decoded BGP UPDATE that startrealaspath consults: the
session ASN32BIT flag, the optional AS_PATH and AS4_PATH attributes, the AS
of the AGGREGATOR attribute when present, and whether AS4_AGGREGATOR is
present. -/
structure UpdateMsg where
  asn32   : Bool
  asPath  : Option (List AsSeg)
  as4Path : Option (List AsSeg)
  aggrAs  : Option Nat
  aggr4   : Bool
deriving DecidableEq

/-- The aggregator guard of startrealaspath: when both AGGREGATOR and
AS4_AGGREGATOR are present and the AGGREGATOR AS is not AS_TRANS, AS4_PATH
is ignored (plain AS_PATH iteration). -/
def aggrBlocks (m : UpdateMsg) : Bool :=
  match m.aggrAs with
  | some a => m.aggr4 && (a != AS_TRANS)
  | none => false

/-- The complete real-AS-path emission: startrealaspath followed by
iterating nextaspath to exhaustion.  Mirrors the branch order of
startrealaspath: no AS_PATH gives the empty iteration; a 32-bit session
skips reconciliation; then the aggregator guard; then a missing AS4_PATH;
then the count comparison; otherwise the countdown starts at
ascount - as4count and the emission commutes to a plain iteration of
AS4_PATH (countdown -1). -/
def realAsPathEmit (m : UpdateMsg) : List AsEnt :=
  match m.asPath with
  | none => []
  | some asp =>
      if m.asn32 then (emitSegsFrom asp (-1)).1
      else if aggrBlocks m then (emitSegsFrom asp (-1)).1
      else
        match m.as4Path with
        | none => (emitSegsFrom asp (-1)).1
        | some as4p =>
            let c := asPathCount asp
            let c4 := asPathCount as4p
            if c < c4 then (emitSegsFrom asp (-1)).1
            else
              let r := emitSegsFrom asp ((c : Int) - (c4 : Int))
              r.1 ++ (if r.2 then (emitSegsFrom as4p (-1)).1 else [])

/-- Specification-side cut: the entries emitted from AS_PATH before the
commutation, i.e. the prefix of the flattened path up to and including the
k-th counting entry. -/
def takeCnt : Nat → List AsEnt → List AsEnt
  | _, [] => []
  | k, e :: rest =>
      if k = 0 then []
      else e :: takeCnt (k - (if entCounts e then 1 else 0)) rest

theorem takeCnt_nil (k : Nat) : takeCnt k [] = [] := rfl

theorem takeCnt_zero (l : List AsEnt) : takeCnt 0 l = [] := by
  cases l <;> simp [takeCnt]

theorem entCount_nil : entCount [] = 0 := rfl

theorem entCount_cons (e : AsEnt) (l : List AsEnt) :
    entCount (e :: l) = (if entCounts e then 1 else 0) + entCount l := by
  by_cases h : entCounts e = true <;> simp [entCount, h, Nat.add_comm]

theorem entCount_append (l1 l2 : List AsEnt) :
    entCount (l1 ++ l2) = entCount l1 + entCount l2 := by
  simp [entCount, List.filter_append]

theorem emitSeg_nil (t first : Bool) (c : Int) :
    emitSeg t first [] c = ([], c, false) := rfl

theorem emitSeg_cons (t first : Bool) (a : Nat) (more : List Nat) (c : Int)
    (hc : ¬ c = 0) :
    emitSeg t first (a :: more) c =
      (⟨t, first, a⟩ :: (emitSeg t false more (c - (if t && !first then 0 else 1))).1,
       (emitSeg t false more (c - (if t && !first then 0 else 1))).2.1,
       (emitSeg t false more (c - (if t && !first then 0 else 1))).2.2) := by
  simp only [emitSeg]
  rw [if_neg hc]

theorem emitSeg_cons_zero (t first : Bool) (a : Nat) (more : List Nat) :
    emitSeg t first (a :: more) 0 = ([], 0, true) := by
  simp [emitSeg]

/-- With a negative countdown the emission within one segment never
commutes: it emits the whole segment and keeps the countdown negative. -/
theorem emitSeg_neg (t : Bool) :
    ∀ (l : List Nat) (first : Bool) (c : Int), c < 0 →
      ∃ c2, c2 < 0 ∧ emitSeg t first l c = (segEnts t first l, c2, false) := by
  intro l
  induction l with
  | nil => exact fun first c hc => ⟨c, hc, rfl⟩
  | cons a more ih =>
      intro first c hc
      have hc0 : ¬ c = 0 := by omega
      have hd : c - (if t && !first then 0 else 1) < 0 := by split <;> omega
      obtain ⟨c2, hc2, he⟩ := ih false (c - (if t && !first then 0 else 1)) hd
      refine ⟨c2, hc2, ?_⟩
      rw [emitSeg_cons t first a more c hc0, he]
      rfl

theorem emitSegsFrom_nil (c : Int) : emitSegsFrom [] c = ([], false) := rfl

theorem emitSegsFrom_cons (s : AsSeg) (rest : List AsSeg) (c : Int) :
    emitSegsFrom (s :: rest) c =
      (if (emitSeg s.isSet true s.ases c).2.2 then
        ((emitSeg s.isSet true s.ases c).1, true)
      else
        ((emitSeg s.isSet true s.ases c).1 ++
           (emitSegsFrom rest (emitSeg s.isSet true s.ases c).2.1).1,
         (emitSegsFrom rest (emitSeg s.isSet true s.ases c).2.1).2)) := rfl

theorem flatSegs_nil : flatSegs [] = [] := rfl

theorem flatSegs_cons (s : AsSeg) (rest : List AsSeg) :
    flatSegs (s :: rest) = segEnts s.isSet true s.ases ++ flatSegs rest := by
  simp [flatSegs]

/-- With a negative countdown the emission is the plain flattening of the
path (regular AS_PATH / post-commutation AS4_PATH iteration). -/
theorem emitSegsFrom_neg :
    ∀ (p : List AsSeg) (c : Int), c < 0 → emitSegsFrom p c = (flatSegs p, false) := by
  intro p
  induction p with
  | nil => intro c hc; rfl
  | cons s rest ih =>
      intro c hc
      obtain ⟨c2, hc2, he⟩ := emitSeg_neg s.isSet s.ases true c hc
      rw [emitSegsFrom_cons, he, flatSegs_cons]
      simp [ih c2 hc2]

/-- Characterization of the in-segment emission at a non-negative countdown
k: it emits the cut of the segment entries at k, leaves the countdown at k
minus the number of counting entries emitted, and when it does not commute
the whole segment was emitted, while when it commutes the countdown has
reached zero. -/
theorem emitSeg_main (t : Bool) :
    ∀ (l : List Nat) (first : Bool) (k : Nat),
      (emitSeg t first l (k : Int)).1 = takeCnt k (segEnts t first l) ∧
      (emitSeg t first l (k : Int)).2.1 =
        ((k - entCount (takeCnt k (segEnts t first l)) : Nat) : Int) ∧
      ((emitSeg t first l (k : Int)).2.2 = false →
        takeCnt k (segEnts t first l) = segEnts t first l) ∧
      ((emitSeg t first l (k : Int)).2.2 = true →
        k - entCount (takeCnt k (segEnts t first l)) = 0) := by
  intro l
  induction l with
  | nil =>
      intro first k
      refine ⟨rfl, ?_, fun _ => rfl, fun h => ?_⟩
      · rw [emitSeg_nil]
        simp [segEnts, takeCnt_nil, entCount_nil]
      · rw [emitSeg_nil] at h
        exact Bool.noConfusion h
  | cons a more ih =>
      intro first k
      have hseg : segEnts t first (a :: more) =
          (⟨t, first, a⟩ : AsEnt) :: segEnts t false more := rfl
      by_cases hk : k = 0
      · subst hk
        have hz : ((0 : Nat) : Int) = 0 := rfl
        rw [hseg, hz, emitSeg_cons_zero]
        refine ⟨(takeCnt_zero _).symm, ?_, fun h => Bool.noConfusion h, fun _ => ?_⟩
        · rw [takeCnt_zero, entCount_nil]
          simp
        · rw [takeCnt_zero, entCount_nil]
      · have hc0 : ¬ ((k : Nat) : Int) = 0 := by
          intro h
          exact hk (by exact_mod_cast h)
        have hflag : (if entCounts ⟨t, first, a⟩ then (1 : Nat) else 0) =
            (if t && !first then 0 else 1) := by
          cases t <;> cases first <;> simp [entCounts]
        have hcast : ((k : Nat) : Int) - (if t && !first then (0 : Int) else 1) =
            (((k - (if t && !first then (0 : Nat) else 1)) : Nat) : Int) := by
          split <;> omega
        have htake : takeCnt k (segEnts t first (a :: more)) =
            (⟨t, first, a⟩ : AsEnt) ::
              takeCnt (k - (if t && !first then (0 : Nat) else 1)) (segEnts t false more) := by
          rw [hseg]
          simp only [takeCnt, if_neg hk, hflag]
        obtain ⟨ih1, ih2, ih3, ih4⟩ := ih false (k - (if t && !first then (0 : Nat) else 1))
        rw [emitSeg_cons t first a more _ hc0, hcast, htake]
        have hcnt : entCount ((⟨t, first, a⟩ : AsEnt) ::
            takeCnt (k - (if t && !first then (0 : Nat) else 1)) (segEnts t false more)) =
            (if t && !first then (0 : Nat) else 1) +
              entCount (takeCnt (k - (if t && !first then (0 : Nat) else 1))
                (segEnts t false more)) := by
          rw [entCount_cons, hflag]
        refine ⟨by rw [ih1], ?_, fun h => ?_, fun h => ?_⟩
        · rw [ih2, hcnt]
          congr 1
          omega
        · rw [ih3 h, hseg]
        · rw [hcnt]
          have := ih4 h
          omega

theorem takeCnt_append :
    ∀ (l1 l2 : List AsEnt) (k : Nat),
      takeCnt k (l1 ++ l2) =
        takeCnt k l1 ++ takeCnt (k - entCount (takeCnt k l1)) l2 := by
  intro l1
  induction l1 with
  | nil =>
      intro l2 k
      rw [List.nil_append, takeCnt_nil, entCount_nil, List.nil_append, Nat.sub_zero]
  | cons e r1 ih =>
      intro l2 k
      by_cases hk : k = 0
      · subst hk
        rw [takeCnt_zero, takeCnt_zero, entCount_nil, takeCnt_zero]
        rfl
      · rw [List.cons_append]
        simp only [takeCnt, if_neg hk]
        rw [ih, entCount_cons, List.cons_append, Nat.sub_sub]

theorem entCount_takeCnt :
    ∀ (l : List AsEnt) (k : Nat), entCount (takeCnt k l) = min k (entCount l) := by
  intro l
  induction l with
  | nil => intro k; rw [takeCnt_nil, entCount_nil]; omega
  | cons e rest ih =>
      intro k
      by_cases hk : k = 0
      · subst hk; rw [takeCnt_zero, entCount_nil]; omega
      · simp only [takeCnt, if_neg hk]
        rw [entCount_cons, entCount_cons, ih]
        split <;> omega

/-- Characterization of the whole-path emission at a non-negative countdown:
it emits the cut of the flattened path at k, and when it does not commute
the cut was the whole flattened path. -/
theorem emitSegsFrom_main :
    ∀ (p : List AsSeg) (k : Nat),
      (emitSegsFrom p (k : Int)).1 = takeCnt k (flatSegs p) ∧
      ((emitSegsFrom p (k : Int)).2 = false →
        takeCnt k (flatSegs p) = flatSegs p) := by
  intro p
  induction p with
  | nil =>
      intro k
      exact ⟨(takeCnt_nil k).symm, fun _ => rfl⟩
  | cons s rest ih =>
      intro k
      obtain ⟨h1, h2, h3, h4⟩ := emitSeg_main s.isSet s.ases true k
      rw [emitSegsFrom_cons]
      cases hsw : (emitSeg s.isSet true s.ases (k : Int)).2.2 with
      | true =>
          rw [if_pos rfl]
          constructor
          · rw [flatSegs_cons, takeCnt_append, h4 hsw, takeCnt_zero,
              List.append_nil, h1]
          · intro h
            exact Bool.noConfusion h
      | false =>
          rw [if_neg (by simp)]
          have hfull : takeCnt k (segEnts s.isSet true s.ases) =
              segEnts s.isSet true s.ases := h3 hsw
          obtain ⟨ihr1, ihr2⟩ :=
            ih (k - entCount (takeCnt k (segEnts s.isSet true s.ases)))
          constructor
          · rw [flatSegs_cons, takeCnt_append, h1, hfull, h2, ihr1, hfull]
          · intro h
            rw [h2] at h
            have h5 := ihr2 h
            rw [hfull] at h5
            rw [flatSegs_cons, takeCnt_append, hfull, h5]

theorem entCount_segEnts_rest (t : Bool) :
    ∀ l : List Nat, entCount (segEnts t false l) = if t then 0 else l.length := by
  intro l
  induction l with
  | nil => cases t <;> rfl
  | cons a more ih =>
      have : segEnts t false (a :: more) =
          (⟨t, false, a⟩ : AsEnt) :: segEnts t false more := rfl
      rw [this, entCount_cons, ih]
      cases t <;> simp [entCounts] <;> omega

theorem entCount_segEnts_head (t : Bool) (l : List Nat) :
    entCount (segEnts t true l) =
      if t then (if l = [] then 0 else 1) else l.length := by
  cases l with
  | nil => cases t <;> rfl
  | cons a more =>
      have : segEnts t true (a :: more) =
          (⟨t, true, a⟩ : AsEnt) :: segEnts t false more := rfl
      rw [this, entCount_cons, entCount_segEnts_rest]
      cases t <;> simp [entCounts] <;> omega

/-- For a path whose SET segments are all non-empty, the number of counting
entries of the flattened path is exactly the AS count computed by
startrealaspath. -/
theorem entCount_flatSegs :
    ∀ p : List AsSeg, (∀ s ∈ p, s.isSet = true → s.ases ≠ []) →
      entCount (flatSegs p) = asPathCount p := by
  intro p
  induction p with
  | nil => intro _; rfl
  | cons s rest ih =>
      intro h
      rw [flatSegs_cons, entCount_append, entCount_segEnts_head,
        ih (fun q hq => h q (List.mem_cons_of_mem s hq))]
      have hne := h s (List.mem_cons_self s rest)
      unfold asPathCount segCount
      cases hs : s.isSet with
      | true =>
          rw [if_pos rfl, if_neg (hne hs)]
          simp [asPathCount, hs]
      | false =>
          rw [if_neg (by simp [hs])]
          simp [asPathCount, hs]

/-- For a path whose SET segments are all non-empty, an AS count of zero
forces the flattening to be empty (only empty SEQ segments). -/
theorem flatSegs_eq_nil_of_count_zero :
    ∀ p : List AsSeg, (∀ s ∈ p, s.isSet = true → s.ases ≠ []) →
      asPathCount p = 0 → flatSegs p = [] := by
  intro p
  induction p with
  | nil => intro _ _; rfl
  | cons s rest ih =>
      intro h hc
      have hcs : segCount s = 0 ∧ asPathCount rest = 0 := by
        have : asPathCount (s :: rest) = segCount s + asPathCount rest := by
          simp [asPathCount]
        omega
      have hseq : s.isSet = false := by
        by_contra hset
        have hset2 : s.isSet = true := by
          cases hval : s.isSet
          · exact absurd hval hset
          · rfl
        have := hcs.1
        rw [segCount, if_pos hset2] at this
        omega
      have hnil : s.ases = [] := by
        have := hcs.1
        rw [segCount, if_neg (by simp [hseq])] at this
        exact List.length_eq_zero.mp this
      rw [flatSegs_cons, hnil]
      have : segEnts s.isSet true [] = [] := rfl
      rw [this, List.nil_append]
      exact ih (fun q hq => h q (List.mem_cons_of_mem s hq)) hcs.2

/-- C1, amended: for an UPDATE without ASN32BIT carrying both AS_PATH and
AS4_PATH, provided the aggregator guard does not fire and no SET segment is
empty, the emitted real AS path is AS_PATH itself when
count(AS_PATH) < count(AS4_PATH); otherwise it is the cut of the flattened
AS_PATH at count(AS_PATH) - count(AS4_PATH) counting entries followed by
all of AS4_PATH, its total count is count(AS_PATH) and its tail is
AS4_PATH. -/
theorem startrealaspath_reconciliation
    (m : UpdateMsg) (asp as4p : List AsSeg)
    (h32 : m.asn32 = false)
    (hasp : m.asPath = some asp)
    (has4 : m.as4Path = some as4p)
    (haggr : aggrBlocks m = false)
    (hset : ∀ s ∈ asp, s.isSet = true → s.ases ≠ [])
    (hset4 : ∀ s ∈ as4p, s.isSet = true → s.ases ≠ []) :
    (asPathCount asp < asPathCount as4p → realAsPathEmit m = flatSegs asp) ∧
    (asPathCount as4p ≤ asPathCount asp →
      realAsPathEmit m =
        takeCnt (asPathCount asp - asPathCount as4p) (flatSegs asp) ++
          flatSegs as4p ∧
      entCount (realAsPathEmit m) = asPathCount asp ∧
      ∃ pre, realAsPathEmit m = pre ++ flatSegs as4p) := by
  have hplain := emitSegsFrom_neg asp (-1) (by omega)
  have hplain4 := emitSegsFrom_neg as4p (-1) (by omega)
  by_cases hlt : asPathCount asp < asPathCount as4p
  · have hre : realAsPathEmit m = flatSegs asp := by
      simp only [realAsPathEmit, hasp, h32, haggr, has4]
      simp only [Bool.false_eq_true, if_false]
      rw [if_pos hlt, hplain]
    exact ⟨fun _ => hre, fun hle => absurd hlt (by omega)⟩
  · have hle : asPathCount as4p ≤ asPathCount asp := by omega
    set k := asPathCount asp - asPathCount as4p with hkdef
    have hcast : ((asPathCount asp : Int) - (asPathCount as4p : Int)) = (k : Int) := by
      omega
    obtain ⟨e1, e2⟩ := emitSegsFrom_main asp k
    have hre : realAsPathEmit m = takeCnt k (flatSegs asp) ++ flatSegs as4p := by
      simp only [realAsPathEmit, hasp, h32, haggr, has4]
      simp only [Bool.false_eq_true, if_false]
      rw [if_neg hlt, hcast]
      cases hsw : (emitSegsFrom asp (k : Int)).2 with
      | true =>
          rw [if_pos rfl, e1, hplain4]
      | false =>
          rw [if_neg (by simp), e1]
          have hfull := e2 hsw
          have hcle : entCount (flatSegs asp) ≤ k := by
            have := entCount_takeCnt (flatSegs asp) k
            rw [hfull] at this
            omega
          have hc : entCount (flatSegs asp) = asPathCount asp :=
            entCount_flatSegs asp hset
          have hc40 : asPathCount as4p = 0 := by omega
          rw [flatSegs_eq_nil_of_count_zero as4p hset4 hc40]
    refine ⟨fun h => absurd h hlt,
      fun _ => ⟨hre, ?_, ⟨takeCnt k (flatSegs asp), hre⟩⟩⟩
    rw [hre, entCount_append, entCount_takeCnt,
      entCount_flatSegs asp hset, entCount_flatSegs as4p hset4]
    omega

/-- A message carrying both AS_PATH and AS4_PATH together with an AGGREGATOR
whose AS (2) differs from AS_TRANS and an AS4_AGGREGATOR: startrealaspath
then ignores AS4_PATH entirely. -/
def msgAggrMismatch : UpdateMsg :=
  ⟨false, some [⟨false, [1]⟩], some [⟨false, [99]⟩], some 2, true⟩

/-- C1, counterexample: the claim quantifies over every UPDATE without
ASN32BIT carrying both AS_PATH and AS4_PATH, but startrealaspath also
ignores AS4_PATH whenever AGGREGATOR and AS4_AGGREGATOR are both present
with an AGGREGATOR AS other than AS_TRANS; on msgAggrMismatch the counts
are equal, so the claim requires the emission to end with AS4_PATH (= 99),
yet the code emits AS_PATH (= 1). -/
theorem realaspath_aggregator_counterexample :
    msgAggrMismatch.asn32 = false ∧
    msgAggrMismatch.asPath = some [⟨false, [1]⟩] ∧
    msgAggrMismatch.as4Path = some [⟨false, [99]⟩] ∧
    ¬ (asPathCount [(⟨false, [1]⟩ : AsSeg)] <
        asPathCount [(⟨false, [99]⟩ : AsSeg)]) ∧
    realAsPathEmit msgAggrMismatch ≠
      takeCnt (asPathCount [(⟨false, [1]⟩ : AsSeg)] -
          asPathCount [(⟨false, [99]⟩ : AsSeg)])
        (flatSegs [(⟨false, [1]⟩ : AsSeg)]) ++
        flatSegs [(⟨false, [99]⟩ : AsSeg)] ∧
    ¬ flatSegs [(⟨false, [99]⟩ : AsSeg)] <:+ realAsPathEmit msgAggrMismatch := by
  decide

/-- A well-behaved message: AS_PATH = SEQ(1 2), AS4_PATH = SEQ(9), no
aggregator conflict; counts 2 and 1. -/
def msgReconcile : UpdateMsg :=
  ⟨false, some [⟨false, [1, 2]⟩], some [⟨false, [9]⟩], none, false⟩

/-- Witness for the amended C1 theorem at msgReconcile. -/
theorem startrealaspath_reconciliation_witness :
    realAsPathEmit msgReconcile =
      takeCnt (asPathCount [(⟨false, [1, 2]⟩ : AsSeg)] -
          asPathCount [(⟨false, [9]⟩ : AsSeg)])
        (flatSegs [(⟨false, [1, 2]⟩ : AsSeg)]) ++
        flatSegs [(⟨false, [9]⟩ : AsSeg)] ∧
    entCount (realAsPathEmit msgReconcile) =
      asPathCount [(⟨false, [1, 2]⟩ : AsSeg)] :=
  ⟨((startrealaspath_reconciliation msgReconcile [⟨false, [1, 2]⟩] [⟨false, [9]⟩]
      rfl rfl rfl rfl (by decide) (by decide)).2 (by decide)).1,
   ((startrealaspath_reconciliation msgReconcile [⟨false, [1, 2]⟩] [⟨false, [9]⟩]
      rfl rfl rfl rfl (by decide) (by decide)).2 (by decide)).2.1⟩

/-! ## Filter virtual machine (filterpacket.c / filterintrin.h)

A bytecode word is (arg << 8) | opcode; we model a word as an opcode tag
plus its 8-bit argument.  The claims below only exercise the control and
stack opcodes (NOP, BLK, ENDBLK, LOAD, EXARG, NOT, CPASS, CFAIL), whose
semantics never touch the BGP message; the packet-access opcodes are
collapsed into a single OTHER tag on which the model reports no result
(no claim runs them).  Stack cells are the int value view of stack_cell_t;
stack growth (vm_growstack) is assumed to succeed, while underflow aborts
with VM_STACK_UNDERFLOW exactly as vm_peek/vm_pop do.  The computed-goto
PREDICT dispatch of the reference executor is documented not to alter
observable behavior and is not modeled. -/

def VM_OUT_OF_MEMORY : Int := -1
def VM_STACK_OVERFLOW : Int := -2
def VM_STACK_UNDERFLOW : Int := -3
def VM_FUNC_UNDEFINED : Int := -4
def VM_K_UNDEFINED : Int := -5
def VM_BAD_ACCESSOR : Int := -6
def VM_TRIE_MISMATCH : Int := -7
def VM_TRIE_UNDEFINED : Int := -8
def VM_PACKET_MISMATCH : Int := -9
def VM_BAD_PACKET : Int := -10
def VM_ILLEGAL_OPCODE : Int := -11
def VM_DANGLING_BLK : Int := -12
def VM_SPURIOUS_ENDBLK : Int := -13
def VM_SURPRISING_BYTES : Int := -14
def VM_BAD_ARRAY : Int := -15

inductive FOp
  | NOP | BLK | ENDBLK | LOAD | EXARG | NOT | CPASS | CFAIL | OTHER
deriving DecidableEq

structure VmInstr where
  op  : FOp
  arg : Nat
deriving DecidableEq

instance : Inhabited VmInstr := ⟨⟨FOp.NOP, 0⟩⟩

/-- vm_extendarg: ((exarg << 8) | arg) & 0x7fffffff. -/
def vm_extendarg (arg exarg : Nat) : Nat := ((exarg <<< 8) ||| arg) &&& 0x7fffffff

/-- vm_exec_break: advance the program counter to the matching ENDBLK.  The
C compares whole bytecode words with the plain opcode values FOPC_ENDBLK
and FOPC_BLK, i.e. it recognizes only words with a zero argument. -/
def vmBreak (code : List VmInstr) : Nat → Nat → Nat → Nat
  | 0, pc, _ => pc
  | fuel + 1, pc, nblk =>
      if pc < code.length then
        let w := code.getD pc default
        let nblk1 := if w == ⟨FOp.ENDBLK, 0⟩ then nblk - 1 else nblk
        let nblk2 := if w == ⟨FOp.BLK, 0⟩ then nblk1 + 1 else nblk1
        if nblk2 = 0 then pc else vmBreak code fuel (pc + 1) nblk2
      else pc

structure VmState where
  stack  : List Int
  curblk : Nat
  pc     : Nat
  exarg  : Nat
deriving DecidableEq

inductive VmOut
  | next (s : VmState)
  | done (stack : List Int) (curblk : Nat)
  | err (e : Int)
  | unmodeled
deriving DecidableEq

/-- One FETCH plus dispatch of bgp_filter, for a program counter within the
code. -/
def vmStepOne (code : List VmInstr) (st : VmState) : VmOut :=
  let i := code.getD st.pc default
  let pc1 := st.pc + 1
  match i.op with
  | FOp.NOP => VmOut.next { st with pc := pc1 }
  | FOp.BLK => VmOut.next { st with pc := pc1, curblk := st.curblk + 1 }
  | FOp.ENDBLK =>
      if st.curblk = 0 then VmOut.err VM_SPURIOUS_ENDBLK
      else VmOut.next { st with pc := pc1, curblk := st.curblk - 1 }
  | FOp.LOAD =>
      VmOut.next { st with pc := pc1, exarg := 0,
                           stack := ((vm_extendarg i.arg st.exarg : Nat) : Int) :: st.stack }
  | FOp.EXARG =>
      VmOut.next { st with pc := pc1, exarg := (st.exarg <<< 8) ||| i.arg }
  | FOp.NOT =>
      match st.stack with
      | [] => VmOut.err VM_STACK_UNDERFLOW
      | v :: rest =>
          VmOut.next { st with pc := pc1,
                               stack := (if v = 0 then (1 : Int) else 0) :: rest }
  | FOp.CPASS =>
      match st.stack with
      | [] => VmOut.err VM_STACK_UNDERFLOW
      | v :: rest =>
          if v ≠ 0 then
            if st.curblk = 0 then VmOut.done (v :: rest) st.curblk
            else VmOut.next { st with pc := vmBreak code (code.length + 1) pc1 1 }
          else VmOut.next { st with pc := pc1, stack := rest }
  | FOp.CFAIL =>
      match st.stack with
      | [] => VmOut.err VM_STACK_UNDERFLOW
      | v :: rest =>
          if v ≠ 0 then
            if st.curblk = 0 then VmOut.done (0 :: rest) st.curblk
            else VmOut.next { st with stack := 0 :: rest,
                                      pc := vmBreak code (code.length + 1) pc1 1 }
          else VmOut.next { st with pc := pc1, stack := rest }
  | FOp.OTHER => VmOut.unmodeled

/-- The done block of bgp_filter: a pending block aborts with
VM_DANGLING_BLK, otherwise the result is whether the popped top of stack is
non-zero (an empty stack aborts with VM_STACK_UNDERFLOW through vm_pop). -/
def vmDone (stack : List Int) (curblk : Nat) : Int :=
  if curblk > 0 then VM_DANGLING_BLK
  else
    match stack with
    | [] => VM_STACK_UNDERFLOW
    | v :: _ => if v ≠ 0 then 1 else 0

/-- The main interpreter loop: while (vm->pc < vm->codesiz).  Each iteration
advances the program counter, so code.length + 1 fuel always suffices; none
is returned only on fuel exhaustion or an unmodeled opcode, and no claim
relies on either. -/
def vmRun (code : List VmInstr) : Nat → VmState → Option Int
  | 0, _ => none
  | fuel + 1, st =>
      if st.pc < code.length then
        match vmStepOne code st with
        | VmOut.next s2 => vmRun code fuel s2
        | VmOut.done stk cb => some (vmDone stk cb)
        | VmOut.err e => some e
        | VmOut.unmodeled => none
      else some (vmDone st.stack st.curblk)

/-- bgp_filter(msg, vm) on a VM loaded with the given bytecode: the state is
reset (cleared stack, pc 0, no open block, no extended argument) and the
loop runs to its done block.  The message is borrowed by the VM but none of
the modeled opcodes reads it. -/
def bgp_filter (_msg : UpdateMsg) (code : List VmInstr) : Option Int :=
  vmRun code (code.length + 1) ⟨[], 0, 0, 0⟩

/-- Claim-side count: number of BLK words minus number of ENDBLK words; when
positive the bytecode certainly contains a BLK with no matching ENDBLK. -/
def blkExcess (code : List VmInstr) : Int :=
  code.foldl
    (fun d i =>
      match i.op with
      | FOp.BLK => d + 1
      | FOp.ENDBLK => d - 1
      | _ => d) 0

/-- C6, counterexample: the bytecode LOAD 1; CPASS; BLK contains a BLK with
no matching ENDBLK, yet bgp_filter returns PASS (1), not VM_DANGLING_BLK:
CPASS terminates the run before the BLK is ever executed. -/
theorem bgp_filter_dangling_counterexample :
    0 < blkExcess [⟨FOp.LOAD, 1⟩, ⟨FOp.CPASS, 0⟩, ⟨FOp.BLK, 0⟩] ∧
    bgp_filter msgReconcile [⟨FOp.LOAD, 1⟩, ⟨FOp.CPASS, 0⟩, ⟨FOp.BLK, 0⟩] = some 1 ∧
    (1 : Int) ≠ VM_DANGLING_BLK := by decide

/-- C6, amended: for every message, the single instruction LOAD 1 makes
bgp_filter return PASS (1), LOAD 0 makes it return FAIL (0), and the single
instruction BLK (reaching the end of the code with an open block) makes it
return VM_DANGLING_BLK; every VM error code is negative. -/
theorem bgp_filter_outcomes (msg : UpdateMsg) :
    bgp_filter msg [⟨FOp.LOAD, 1⟩] = some 1 ∧
    bgp_filter msg [⟨FOp.LOAD, 0⟩] = some 0 ∧
    bgp_filter msg [⟨FOp.BLK, 0⟩] = some VM_DANGLING_BLK ∧
    VM_OUT_OF_MEMORY < 0 ∧ VM_STACK_OVERFLOW < 0 ∧ VM_STACK_UNDERFLOW < 0 ∧
    VM_FUNC_UNDEFINED < 0 ∧ VM_K_UNDEFINED < 0 ∧ VM_BAD_ACCESSOR < 0 ∧
    VM_TRIE_MISMATCH < 0 ∧ VM_TRIE_UNDEFINED < 0 ∧ VM_PACKET_MISMATCH < 0 ∧
    VM_BAD_PACKET < 0 ∧ VM_ILLEGAL_OPCODE < 0 ∧ VM_DANGLING_BLK < 0 ∧
    VM_SPURIOUS_ENDBLK < 0 ∧ VM_SURPRISING_BYTES < 0 ∧ VM_BAD_ARRAY < 0 :=
  ⟨rfl, rfl, rfl, by decide⟩

/-- Witness instantiating the VM outcome theorem at a concrete message. -/
theorem bgp_filter_outcomes_witness :
    bgp_filter msgReconcile [⟨FOp.LOAD, 1⟩] = some 1 ∧
    bgp_filter msgReconcile [⟨FOp.LOAD, 0⟩] = some 0 ∧
    bgp_filter msgReconcile [⟨FOp.BLK, 0⟩] = some VM_DANGLING_BLK ∧
    VM_OUT_OF_MEMORY < 0 ∧ VM_STACK_OVERFLOW < 0 ∧ VM_STACK_UNDERFLOW < 0 ∧
    VM_FUNC_UNDEFINED < 0 ∧ VM_K_UNDEFINED < 0 ∧ VM_BAD_ACCESSOR < 0 ∧
    VM_TRIE_MISMATCH < 0 ∧ VM_TRIE_UNDEFINED < 0 ∧ VM_PACKET_MISMATCH < 0 ∧
    VM_BAD_PACKET < 0 ∧ VM_ILLEGAL_OPCODE < 0 ∧ VM_DANGLING_BLK < 0 ∧
    VM_SPURIOUS_ENDBLK < 0 ∧ VM_SURPRISING_BYTES < 0 ∧ VM_BAD_ARRAY < 0 :=
  bgp_filter_outcomes msgReconcile

/-! ## VM heap allocator (filterintrin.c, vm_heap_alloc)

The two-zone bump allocator: PERM grows highwater upward from 0, TEMP lives
above highwater and grows dynmarker.  Sizes are aligned to
sizeof(max_align_t) = 16.  vm_heap_ensure grows the backing buffer by
realloc; allocation of host memory is modeled as always succeeding (a
failing realloc is an environmental out-of-memory condition outside the
zone discipline under scrutiny). -/

def VM_BAD_HEAP_PTR : Int := -1

def HEAP_GROW_STEP : Nat := 256

structure VmHeap where
  highwater : Nat
  dynmarker : Nat
  heapsiz   : Nat
deriving DecidableEq

/-- Size alignment of vm_heap_alloc: size += 15; size -= size & 15. -/
def alignAlloc (s : Nat) : Nat := (s + 15) - ((s + 15) &&& 15)

/-- vm_heap_ensure: keep the heap if the free space suffices, otherwise
grow it to used + size + HEAP_GROW_STEP (realloc assumed to succeed). -/
def vm_heap_ensure (h : VmHeap) (size : Nat) : VmHeap :=
  let used := h.highwater + h.dynmarker
  if size ≤ h.heapsiz - used then h
  else { h with heapsiz := used + size + HEAP_GROW_STEP }

inductive HeapZone
  | perm | temp
deriving DecidableEq

/-- vm_heap_alloc: returns the updated heap and the allocated offset, or
VM_BAD_HEAP_PTR; a PERM allocation while TEMP allocations are outstanding
(dynmarker > 0) is rejected. -/
def vm_heap_alloc (h : VmHeap) (size : Nat) (zone : HeapZone) : VmHeap × Int :=
  let asize := alignAlloc size
  let h1 := vm_heap_ensure h asize
  match zone with
  | HeapZone.perm =>
      if 0 < h1.dynmarker then (h1, VM_BAD_HEAP_PTR)
      else ({ h1 with highwater := h1.highwater + asize }, (h1.highwater : Int))
  | HeapZone.temp =>
      ({ h1 with dynmarker := h1.dynmarker + asize },
       ((h1.highwater + h1.dynmarker : Nat) : Int))

/-- The zeroed heap of a freshly initialized VM (filter_init memsets the
whole VM). -/
def heap0 : VmHeap := ⟨0, 0, 0⟩

/-- C7, counterexample: in a fresh session, a TEMP allocation requested
after a PERM allocation is served (offset 16, above the PERM chunk), not
rejected with the bad-heap-pointer sentinel. -/
theorem vm_heap_temp_after_perm_counterexample :
    (vm_heap_alloc (vm_heap_alloc heap0 8 HeapZone.perm).1 8 HeapZone.temp).2 = 16 ∧
    (16 : Int) ≠ VM_BAD_HEAP_PTR := by decide

/-- C7, amended: the discipline is the reverse of the claim: a PERM
allocation requested while a TEMP allocation is outstanding is rejected
with VM_BAD_HEAP_PTR, while a TEMP allocation always yields the valid
offset highwater + dynmarker (a non-negative offset, never the
sentinel). -/
theorem vm_heap_zone_discipline (h : VmHeap) (size : Nat)
    (hdyn : 0 < h.dynmarker) :
    (vm_heap_alloc h size HeapZone.perm).2 = VM_BAD_HEAP_PTR ∧
    (vm_heap_alloc h size HeapZone.temp).2 =
      ((h.highwater + h.dynmarker : Nat) : Int) ∧
    (vm_heap_alloc h size HeapZone.temp).2 ≠ VM_BAD_HEAP_PTR := by
  have hens : ∀ s, (vm_heap_ensure h s).dynmarker = h.dynmarker ∧
      (vm_heap_ensure h s).highwater = h.highwater := by
    intro s
    simp only [vm_heap_ensure]
    split <;> exact ⟨rfl, rfl⟩
  obtain ⟨hd, hw⟩ := hens (alignAlloc size)
  refine ⟨?_, ?_, ?_⟩
  · simp only [vm_heap_alloc]
    rw [if_pos (by rw [hd]; exact hdyn)]
  · simp only [vm_heap_alloc]
    rw [hd, hw]
  · simp only [vm_heap_alloc]
    rw [hd, hw]
    intro hcontra
    rw [VM_BAD_HEAP_PTR] at hcontra
    omega

/-- Witness for the amended C7 theorem at a heap with one outstanding TEMP
chunk. -/
theorem vm_heap_zone_discipline_witness :
    (vm_heap_alloc ⟨0, 16, 272⟩ 8 HeapZone.perm).2 = VM_BAD_HEAP_PTR ∧
    (vm_heap_alloc ⟨0, 16, 272⟩ 8 HeapZone.temp).2 = ((0 + 16 : Nat) : Int) ∧
    (vm_heap_alloc ⟨0, 16, 272⟩ 8 HeapZone.temp).2 ≠ VM_BAD_HEAP_PTR :=
  vm_heap_zone_discipline ⟨0, 16, 272⟩ 8 (by decide)

/-! ## Patricia trie (patriciatrie.c)

Nodes live in pool-allocated pages; we model the pool as a growing list of
nodes whose indices stand for the C pointers, with allocation appending a
fresh zero-initialized node (pnodeinit memsets the node).  The glue tag
kept in the low bit of the parent pointer becomes an explicit flag, as the
spec itself suggests.  The free list and page recycling are memory
management and are not modeled: putfreenode leaves the node in place (in
the C it also overlays the free-list link on the node's prefix storage).
The nprefs counter is a C uint and wraps modulo 2^32. -/

structure PNode where
  pfx    : Netaddr
  glue   : Bool
  parent : Option Nat
  left   : Option Nat
  right  : Option Nat
deriving DecidableEq

instance : Inhabited PNode :=
  ⟨⟨⟨AF_UNSPEC, 0, List.replicate 16 0⟩, false, none, none, none⟩⟩

structure Patricia where
  nodes     : List PNode
  head      : Option Nat
  maxbitlen : Nat
  nprefs    : Nat
deriving DecidableEq

/-- patinit: an empty trie bound to one family. -/
def patinit (family : Nat) : Patricia :=
  ⟨[], none, if family = AF_INET6 then 128 else 32, 0⟩

def wrap32 (n : Nat) : Nat := n % 4294967296

def getNode (pt : Patricia) (i : Nat) : PNode := pt.nodes.getD i default

def setNode (pt : Patricia) (i : Nat) (n : PNode) : Patricia :=
  { pt with nodes := pt.nodes.set i n }

def childOf (n : PNode) (b : Bool) : Option Nat := if b then n.right else n.left

def setChild (n : PNode) (b : Bool) (c : Option Nat) : PNode :=
  if b then { n with right := c } else { n with left := c }

/-- Bit test prefix->bytes[k >> 3] & (0x80 >> (k & 0x07)). -/
def testBitAddr (a : Netaddr) (k : Nat) : Bool :=
  (a.byte (k >>> 3) &&& (0x80 >>> (k &&& 7))) != 0

/-- patcompwithmask: byte compare of the first mask/8 bytes, then the
partial byte under the mask when mask is not a multiple of 8. -/
def patcompwithmask (a d : Netaddr) (mask : Nat) : Bool :=
  if (List.range (mask / 8)).all (fun i => a.byte i == d.byte i) then
    ((mask &&& 7) == 0) ||
      ((a.byte (mask / 8) &&& pmask mask) == (d.byte (mask / 8) &&& pmask mask))
  else false

/-- The walk of patinsert: descend by the bit at the current node's bit
length while the node is shorter than the key or is glue, stopping at a
missing child. -/
def patwalkIns (pt : Patricia) (pfx : Netaddr) : Nat → Nat → Nat
  | 0, i => i
  | fuel + 1, i =>
      let n := getNode pt i
      if n.pfx.bitlen < pfx.bitlen ∨ n.glue = true then
        let bit := decide (n.pfx.bitlen < pt.maxbitlen) && testBitAddr pfx n.pfx.bitlen
        match childOf n bit with
        | none => i
        | some j => patwalkIns pt pfx fuel j
      else i

/-- Inner loop of the differ-bit computation: the first set bit of a byte,
scanning from the most significant bit (j = 8 when the byte is zero, which
the caller never passes). -/
def firstDiffBit (r : Nat) : Nat :=
  (((List.range 8).find? fun j => (r &&& (0x80 >>> j)) != 0).getD 8)

/-- The differ-bit loop of patinsert: scan bytes while z < check_bit; a
matching byte advances differ_bit to z + 8, a mismatch yields z plus the
first differing bit of the byte. -/
def differLoop (pb nb : List Nat) (checkBit : Nat) : Nat → Nat → Nat → Nat → Nat
  | 0, _, _, acc => acc
  | fuel + 1, i, z, acc =>
      if z < checkBit then
        if (pb.getD i 0) ^^^ (nb.getD i 0) = 0 then
          differLoop pb nb checkBit fuel (i + 1) (z + 8) (z + 8)
        else z + firstDiffBit ((pb.getD i 0) ^^^ (nb.getD i 0))
      else acc

/-- differ_bit with the final clamp to check_bit. -/
def differBit (pb nb : List Nat) (checkBit : Nat) : Nat :=
  let d := differLoop pb nb checkBit 17 0 0 0
  if checkBit < d then checkBit else d

/-- The back-up loop of patinsert: climb while the parent's bit length is at
least differ_bit. -/
def patbackup (pt : Patricia) (differ : Nat) : Nat → Nat → Nat
  | 0, i => i
  | fuel + 1, i =>
      match (getNode pt i).parent with
      | none => i
      | some p =>
          if differ ≤ (getNode pt p).pfx.bitlen then patbackup pt differ fuel p
          else i

/-- patinsert: returns (node, new trie, inserted flag); the flag mirrors
PREFIX_INSERTED (true) / PREFIX_ALREADY_PRESENT (false).  Every branch of
the C function is reproduced, including the exact-match branch that returns
a glue node unconverted while converting a non-glue node (and bumping
nprefs), and the dead second occurrence of the n->prefix.bitlen ==
differ_bit test whose body uses test_addr of the pre-backup node. -/
def patinsert (pt : Patricia) (pfx : Netaddr) : Option Nat × Patricia × Bool :=
  match pt.head with
  | none =>
      let idx := pt.nodes.length
      (some idx,
       { pt with nodes := pt.nodes ++ [⟨pfx, false, none, none, none⟩],
                 head := some idx, nprefs := wrap32 (pt.nprefs + 1) },
       true)
  | some h =>
      let maxbits := pt.maxbitlen
      let w := patwalkIns pt pfx (pt.nodes.length + 1) h
      let testAddr := (getNode pt w).pfx.bytes
      let checkBit := min (getNode pt w).pfx.bitlen pfx.bitlen
      let differ := differBit pfx.bytes (getNode pt w).pfx.bytes checkBit
      let n := patbackup pt differ (pt.nodes.length + 1) w
      let nd := getNode pt n
      if differ = pfx.bitlen ∧ nd.pfx.bitlen = pfx.bitlen then
        if nd.glue = true then (some n, pt, false)
        else
          (some n,
           { setNode pt n { nd with pfx := pfx, glue := false } with
               nprefs := wrap32 (pt.nprefs + 1) },
           false)
      else
        let newIdx := pt.nodes.length
        let pt1 :=
          { pt with nodes := pt.nodes ++ [⟨pfx, false, none, none, none⟩],
                    nprefs := wrap32 (pt.nprefs + 1) }
        if nd.pfx.bitlen = differ then
          let bit := decide (nd.pfx.bitlen < maxbits) && testBitAddr pfx nd.pfx.bitlen
          let pt2 := setNode pt1 newIdx { getNode pt1 newIdx with parent := some n }
          let pt3 := setNode pt2 n (setChild (getNode pt2 n) bit (some newIdx))
          (some newIdx, pt3, true)
        else if nd.pfx.bitlen = differ then
          -- dead in the C source: the condition duplicates the branch above
          let bit := decide (pfx.bitlen < maxbits) &&
            ((testAddr.getD (pfx.bitlen >>> 3) 0 &&& (0x80 >>> (pfx.bitlen &&& 7))) != 0)
          let pt2 := setNode pt1 newIdx (setChild (getNode pt1 newIdx) bit (some n))
          let pt3 := setNode pt2 newIdx { getNode pt2 newIdx with parent := some n }
          let pt4 :=
            match nd.parent with
            | none => { pt3 with head := some newIdx }
            | some par =>
                if (getNode pt3 par).right = some n then
                  setNode pt3 par
                    (setChild (getNode pt3 par) ((getNode pt3 par).right = some n)
                      (some n))
                else pt3
          let pt5 := setNode pt4 n { getNode pt4 n with parent := some newIdx }
          (some newIdx, pt5, true)
        else
          let glueIdx := pt1.nodes.length
          let pt2 :=
            { pt1 with nodes := pt1.nodes ++
                [⟨⟨AF_UNSPEC, differ, List.replicate 16 0⟩, true, nd.parent, none, none⟩] }
          let bit := decide (differ < maxbits) && testBitAddr pfx differ
          let pt3 := setNode pt2 glueIdx (setChild (getNode pt2 glueIdx) bit (some newIdx))
          let pt4 := setNode pt3 glueIdx (setChild (getNode pt3 glueIdx) (!bit) (some n))
          let pt5 := setNode pt4 newIdx { getNode pt4 newIdx with parent := some glueIdx }
          let pt6 :=
            match nd.parent with
            | none => { pt5 with head := some glueIdx }
            | some par =>
                let dir := (getNode pt5 par).right = some n
                setNode pt5 par (setChild (getNode pt5 par) dir (some glueIdx))
          let pt7 := setNode pt6 n { getNode pt6 n with parent := some glueIdx }
          (some newIdx, pt7, true)

/-- The walk of patsearchexact: descend by the key bit while the node is
shorter than the key; a missing child fails the search. -/
def patwalkSearch (pt : Patricia) (pfx : Netaddr) : Nat → Nat → Option Nat
  | 0, i => some i
  | fuel + 1, i =>
      let n := getNode pt i
      if n.pfx.bitlen < pfx.bitlen then
        match childOf n (testBitAddr pfx n.pfx.bitlen) with
        | none => none
        | some j => patwalkSearch pt pfx fuel j
      else some i

/-- patsearchexact: the walk must stop at a non-glue node of exactly the
key's bit length whose bits match under the full-length mask. -/
def patsearchexact (pt : Patricia) (pfx : Netaddr) : Option Nat :=
  match pt.head with
  | none => none
  | some h =>
      match patwalkSearch pt pfx (pt.nodes.length + 1) h with
      | none => none
      | some i =>
          if pfx.bitlen < (getNode pt i).pfx.bitlen ∨ (getNode pt i).glue = true then
            none
          else if patcompwithmask (getNode pt i).pfx pfx pfx.bitlen then some i
          else none

def setParentOpt (pt : Patricia) (c : Option Nat) (p : Option Nat) : Patricia :=
  match c with
  | none => pt
  | some ci => setNode pt ci { getNode pt ci with parent := p }

/-- patremove: note the C decrements nprefs before checking whether the
prefix was found at all.  The found branches unlink or demote the node as
in the source (free-list recycling not modeled). -/
def patremove (pt : Patricia) (pfx : Netaddr) : Option Unit × Patricia :=
  let found := patsearchexact pt pfx
  let ptd := { pt with nprefs := wrap32 (pt.nprefs + 4294967295) }
  match found with
  | none => (none, ptd)
  | some i =>
      let n := getNode ptd i
      if n.left ≠ none ∧ n.right ≠ none then
        (some (), setNode ptd i { n with glue := true })
      else if n.left = none ∧ n.right = none then
        match n.parent with
        | none => (some (), { ptd with head := none })
        | some par =>
            let bit := (getNode ptd par).right = some i
            let pt2 := setNode ptd par (setChild (getNode ptd par) bit none)
            let parNode := getNode pt2 par
            let child := childOf parNode (!bit)
            if parNode.glue = false then (some (), pt2)
            else
              let pt3 :=
                match parNode.parent with
                | none => { pt2 with head := child }
                | some gp =>
                    let dir := (getNode pt2 gp).right = some par
                    setNode pt2 gp (setChild (getNode pt2 gp) dir child)
              (some (), setParentOpt pt3 child parNode.parent)
      else
        let bit := n.right ≠ none
        let child := childOf n bit
        let pt2 := setParentOpt ptd child n.parent
        match n.parent with
        | none => (some (), { pt2 with head := child })
        | some par =>
            let dir := (getNode pt2 par).right = some i
            (some (), setNode pt2 par (setChild (getNode pt2 par) dir child))

/-! ### Iterator and coverage -/

structure PatIter where
  stack : List Nat
  curr  : Option Nat
deriving DecidableEq

/-- patiteratormovenext: go to the left child (pushing the right), else the
right child, else pop the stack, else finish. -/
def patiteratormovenext (pt : Patricia) (st : PatIter) : PatIter :=
  match st.curr with
  | none => st
  | some c =>
      match (getNode pt c).left, (getNode pt c).right with
      | some l, some r => ⟨r :: st.stack, some l⟩
      | some l, none => ⟨st.stack, some l⟩
      | none, some r => ⟨st.stack, some r⟩
      | none, none =>
          match st.stack with
          | top :: rest => ⟨rest, some top⟩
          | [] => ⟨st.stack, none⟩

/-- patiteratorskipglue: advance while the current node is glue. -/
def patiteratorskipglue (pt : Patricia) : Nat → PatIter → PatIter
  | 0, st => st
  | fuel + 1, st =>
      match st.curr with
      | some c =>
          if (getNode pt c).glue then
            patiteratorskipglue pt fuel (patiteratormovenext pt st)
          else st
      | none => st

/-- patiteratorinit: start at the head and skip glue. -/
def patiteratorinit (pt : Patricia) : PatIter :=
  patiteratorskipglue pt (pt.nodes.length + 1) ⟨[], pt.head⟩

/-- The sequence of prefixes the public iterator emits
(patiteratorget / patiteratornext until patiteratorend). -/
def patiterEmit (pt : Patricia) : Nat → PatIter → List Netaddr
  | 0, _ => []
  | fuel + 1, st =>
      match st.curr with
      | none => []
      | some c =>
          (getNode pt c).pfx ::
            patiterEmit pt fuel
              (patiteratorskipglue pt (pt.nodes.length + 1)
                (patiteratormovenext pt st))

def patIterList (pt : Patricia) : List Netaddr :=
  patiterEmit pt (pt.nodes.length + 1) (patiteratorinit pt)

/-- 128-bit modular addition (u128add). -/
def u128add (x y : Nat) : Nat := (x + y) % (2 ^ 128)

/-- 128-bit left shift (u128shl); shifting by 128 or more yields zero. -/
def u128shl (x n : Nat) : Nat := if 128 ≤ n then 0 else (x <<< n) % (2 ^ 128)

/-- patcoverage: explicit-stack walk that, on a non-glue node of non-zero
bit length, adds 2^(maxbitlen - bitlen) and pops the stack without
descending into the node's children; glue and default-route nodes are
descended. -/
def patcoverageLoop (pt : Patricia) : Nat → Option Nat → List Nat → Nat → Nat
  | 0, _, _, acc => acc
  | fuel + 1, cur, stack, acc =>
      match cur with
      | none => acc
      | some c =>
          let n := getNode pt c
          if n.glue = false ∧ n.pfx.bitlen ≠ 0 then
            let acc2 := u128add acc (u128shl 1 (pt.maxbitlen - n.pfx.bitlen))
            match stack with
            | top :: rest => patcoverageLoop pt fuel (some top) rest acc2
            | [] => acc2
          else
            match n.left, n.right with
            | some l, some r => patcoverageLoop pt fuel (some l) (r :: stack) acc
            | some l, none => patcoverageLoop pt fuel (some l) stack acc
            | none, some r => patcoverageLoop pt fuel (some r) stack acc
            | none, none =>
                match stack with
                | top :: rest => patcoverageLoop pt fuel (some top) rest acc
                | [] => acc

def patcoverage (pt : Patricia) : Nat :=
  patcoverageLoop pt (2 * pt.nodes.length + 2) pt.head [] 0

/-- Claim-side collection of every node reachable from the head (full
pre-order, no pruning). -/
def patAllNodes (pt : Patricia) : Nat → List Nat → List Nat
  | 0, _ => []
  | _ + 1, [] => []
  | fuel + 1, i :: rest =>
      let n := getNode pt i
      i :: patAllNodes pt fuel
        ((match n.left with | some l => [l] | none => []) ++
         (match n.right with | some r => [r] | none => []) ++ rest)

/-- Claim-side sum: 2^(maxbitlen - bitlen) over every reachable non-glue
node other than the default route, in 128-bit arithmetic. -/
def claimCoverageSum (pt : Patricia) : Nat :=
  ((patAllNodes pt (2 * pt.nodes.length + 2)
      (match pt.head with | some h => [h] | none => [])).filter
    (fun i => !(getNode pt i).glue && ((getNode pt i).pfx.bitlen != 0))).foldl
    (fun acc i => u128add acc (u128shl 1 (pt.maxbitlen - (getNode pt i).pfx.bitlen))) 0

/-- Shorthand for concrete IPv4 prefixes. -/
def pfx4 (b0 b1 b2 b3 len : Nat) : Netaddr :=
  ⟨AF_INET, len, [b0, b1, b2, b3, 0, 0, 0, 0, 0, 0, 0, 0, 0, 0, 0, 0]⟩

/-- The trie obtained by inserting 10.128.0.0/9 into a fresh IPv4 trie. -/
def ptNine : Patricia := (patinsert (patinit AF_INET) (pfx4 10 128 0 0 9)).2.1

/-- C4, code bug: inserting 10.0.0.0/8 into a trie holding 10.128.0.0/9
reports PREFIX_INSERTED and returns a node, yet patsearchexact of
10.0.0.0/8 immediately afterwards returns null: the new prefix is an
ancestor of the existing node, a case whose branch in patinsert is dead
(its condition duplicates the previous branch), so a glue node of the same
bit length as the new prefix is created above it and the search stops on
that glue node. -/
theorem patinsert_search_roundtrip_bug :
    (patinsert ptNine (pfx4 10 0 0 0 8)).2.2 = true ∧
    (patinsert ptNine (pfx4 10 0 0 0 8)).1 ≠ none ∧
    patsearchexact (patinsert ptNine (pfx4 10 0 0 0 8)).2.1 (pfx4 10 0 0 0 8) =
      none ∧
    patsearchexact (patinsert ptNine (pfx4 10 0 0 0 8)).2.1 (pfx4 10 128 0 0 9) ≠
      none := by decide

/-- The trie obtained by inserting 0.0.0.0/1, 128.0.0.0/1 and then the
default route 0.0.0.0/0 into a fresh IPv4 trie. -/
def ptThree : Patricia :=
  (patinsert (patinsert (patinsert (patinit AF_INET)
    (pfx4 0 0 0 0 1)).2.1 (pfx4 128 0 0 0 1)).2.1 (pfx4 0 0 0 0 0)).2.1

/-- C5, code bug: after inserting the three distinct prefixes 0.0.0.0/1,
128.0.0.0/1, 0.0.0.0/0 (in that order), the iterator emits only two
prefixes and never 0.0.0.0/0: the exact-match-on-glue branch of patinsert
returns the glue node unconverted (reporting PREFIX_ALREADY_PRESENT), the
reverse of spec outcome (a), so the third prefix is silently dropped. -/
theorem patiterator_missing_prefix_bug :
    pfx4 0 0 0 0 0 ≠ pfx4 0 0 0 0 1 ∧
    pfx4 0 0 0 0 0 ≠ pfx4 128 0 0 0 1 ∧
    (patinsert (patinsert (patinsert (patinit AF_INET)
      (pfx4 0 0 0 0 1)).2.1 (pfx4 128 0 0 0 1)).2.1 (pfx4 0 0 0 0 0)).2.2 =
      false ∧
    patIterList ptThree = [pfx4 0 0 0 0 1, pfx4 128 0 0 0 1] ∧
    pfx4 0 0 0 0 0 ∉ patIterList ptThree := by decide

/-- C10, code bug: removing an absent prefix from an empty trie returns
NULL but decrements nprefs before the null check, wrapping the unsigned
counter from 0 to 2^32 - 1; the claim says the trie is left entirely
unchanged. -/
theorem patremove_absent_decrements_nprefs :
    patsearchexact (patinit AF_INET) (pfx4 10 0 0 0 8) = none ∧
    (patremove (patinit AF_INET) (pfx4 10 0 0 0 8)).1 = none ∧
    (patremove (patinit AF_INET) (pfx4 10 0 0 0 8)).2.nodes =
      (patinit AF_INET).nodes ∧
    (patremove (patinit AF_INET) (pfx4 10 0 0 0 8)).2.head =
      (patinit AF_INET).head ∧
    (patremove (patinit AF_INET) (pfx4 10 0 0 0 8)).2.nprefs = 4294967295 ∧
    (patinit AF_INET).nprefs = 0 := by decide

/-- The trie holding the nested prefixes 10.0.0.0/8 and 10.0.0.0/9. -/
def ptNested : Patricia :=
  (patinsert (patinsert (patinit AF_INET)
    (pfx4 10 0 0 0 8)).2.1 (pfx4 10 0 0 0 9)).2.1

/-- C8, counterexample: on a trie holding 10.0.0.0/8 with 10.0.0.0/9 below
it, patcoverage returns 2^24 while the claimed sum over all stored
non-glue, non-default prefixes is 2^24 + 2^23: the traversal never
descends below a counted prefix node. -/
theorem patcoverage_counterexample :
    patcoverage ptNested = 16777216 ∧
    claimCoverageSum ptNested = 25165824 ∧
    (16777216 : Nat) ≠ 25165824 := by decide

/-! ### Coverage on tree-shaped tries

For the general statement about patcoverage we view a trie as an inductive
binary tree (a null child pointer becomes a leaf).  The explicit-stack loop
of the C is the standard pre-order traversal with pruning below counted
nodes; it is rendered as the equivalent structural recursion, combining
with the same u128add. -/

inductive PTree where
  | leaf : PTree
  | node (pfx : Netaddr) (glue : Bool) (l r : PTree) : PTree
deriving DecidableEq

/-- patcoverage on a tree: a non-glue node of non-zero bit length
contributes 2^(maxbitlen - bitlen) and its subtrees are skipped; any other
node is descended. -/
def covTree (maxbl : Nat) : PTree → Nat
  | PTree.leaf => 0
  | PTree.node pfx glue l r =>
      if glue = false ∧ pfx.bitlen ≠ 0 then u128shl 1 (maxbl - pfx.bitlen)
      else u128add (covTree maxbl l) (covTree maxbl r)

/-- All nodes of a tree, each with its prefix, glue flag, and whether some
proper ancestor is a counted node (non-glue, non-zero bit length). -/
def nodesWithAnc (anc : Bool) : PTree → List (Netaddr × Bool × Bool)
  | PTree.leaf => []
  | PTree.node pfx glue l r =>
      (pfx, glue, anc) ::
        (nodesWithAnc (anc || (!glue && (pfx.bitlen != 0))) l ++
         nodesWithAnc (anc || (!glue && (pfx.bitlen != 0))) r)

/-- The contribution of one recorded node to the topmost-prefix sum. -/
def topTerm (maxbl : Nat) (e : Netaddr × Bool × Bool) : Nat :=
  if !e.2.1 && (e.1.bitlen != 0) && !e.2.2 then 2 ^ (maxbl - e.1.bitlen) else 0

/-- Specification-side sum: 2^(maxbitlen - bitlen) over the non-glue,
non-default nodes that have no counted proper ancestor. -/
def topSum (maxbl : Nat) (t : PTree) : Nat :=
  ((nodesWithAnc false t).map (topTerm maxbl)).sum

theorem topTerm_anc_zero (maxbl : Nat) (p : Netaddr) (g : Bool) :
    topTerm maxbl (p, g, true) = 0 := by
  simp [topTerm]

/-- Below a counted ancestor every recorded node is flagged, so the whole
subtree contributes nothing to the topmost sum. -/
theorem topSum_anc_true (maxbl : Nat) :
    ∀ t : PTree, ((nodesWithAnc true t).map (topTerm maxbl)).sum = 0 := by
  intro t
  induction t with
  | leaf => rfl
  | node pfx glue l r ihl ihr =>
      simp only [nodesWithAnc, Bool.true_or, List.map_cons, List.map_append,
        List.sum_cons, List.sum_append, ihl, ihr, topTerm_anc_zero]
      rfl

/-- C8, amended: for every maximum bit length and every trie (viewed as a
tree), patcoverage equals, modulo 2^128, the sum of 2^(maxbitlen - bitlen)
over the non-glue non-default prefixes that are not below another counted
prefix (the traversal skips the subtrees of counted nodes). -/
theorem patcoverage_topmost (maxbl : Nat) (t : PTree) :
    covTree maxbl t = topSum maxbl t % 2 ^ 128 := by
  induction t with
  | leaf => rfl
  | node pfx glue l r ihl ihr =>
      by_cases hc : glue = false ∧ pfx.bitlen ≠ 0
      · have hb : (!glue && (pfx.bitlen != 0)) = true := by
          simp [hc.1, hc.2]
        have ht : topTerm maxbl (pfx, glue, false) = 2 ^ (maxbl - pfx.bitlen) := by
          simp [topTerm, hc.1, hc.2]
        have hsum : topSum maxbl (PTree.node pfx glue l r) =
            2 ^ (maxbl - pfx.bitlen) := by
          simp only [topSum, nodesWithAnc, hb, Bool.false_or, List.map_cons,
            List.map_append, List.sum_cons, List.sum_append, topSum_anc_true, ht]
          rfl
        rw [hsum]
        show (if glue = false ∧ pfx.bitlen ≠ 0 then u128shl 1 (maxbl - pfx.bitlen)
          else u128add (covTree maxbl l) (covTree maxbl r)) =
            2 ^ (maxbl - pfx.bitlen) % 2 ^ 128
        rw [if_pos hc, u128shl]
        by_cases hn : 128 ≤ maxbl - pfx.bitlen
        · rw [if_pos hn]
          obtain ⟨c, hcend⟩ := pow_dvd_pow 2 hn
          rw [hcend, Nat.mul_mod_right]
        · rw [if_neg hn, Nat.shiftLeft_eq, one_mul]
      · have hb : (!glue && (pfx.bitlen != 0)) = false := by
          cases hg : glue
          · have hz : pfx.bitlen = 0 := by
              by_contra hz
              exact hc ⟨hg, hz⟩
            simp [hz]
          · simp
        have ht : topTerm maxbl (pfx, glue, false) = 0 := by
          cases hg : glue
          · have hz : pfx.bitlen = 0 := by
              by_contra hz
              exact hc ⟨hg, hz⟩
            simp [topTerm, hz]
          · simp [topTerm, hg]
        have hsum : topSum maxbl (PTree.node pfx glue l r) =
            topSum maxbl l + topSum maxbl r := by
          simp only [topSum, nodesWithAnc, hb, Bool.false_or, List.map_cons,
            List.map_append, List.sum_cons, List.sum_append, ht, Nat.zero_add]
        rw [hsum]
        show (if glue = false ∧ pfx.bitlen ≠ 0 then u128shl 1 (maxbl - pfx.bitlen)
          else u128add (covTree maxbl l) (covTree maxbl r)) =
            (topSum maxbl l + topSum maxbl r) % 2 ^ 128
        rw [if_neg hc, u128add, ihl, ihr]
        conv_rhs => rw [Nat.add_mod]

/-- Witness instantiating the coverage theorem on the nested two-prefix
tree. -/
theorem patcoverage_topmost_witness :
    covTree 32 (PTree.node (pfx4 10 0 0 0 8) false
        (PTree.node (pfx4 10 0 0 0 9) false PTree.leaf PTree.leaf)
        PTree.leaf) =
      topSum 32 (PTree.node (pfx4 10 0 0 0 8) false
        (PTree.node (pfx4 10 0 0 0 9) false PTree.leaf PTree.leaf)
        PTree.leaf) % 2 ^ 128 :=
  patcoverage_topmost 32 (PTree.node (pfx4 10 0 0 0 8) false
    (PTree.node (pfx4 10 0 0 0 9) false PTree.leaf PTree.leaf) PTree.leaf)

/-! ## Address formatting and parsing (netaddr.c, strutil.h)

naddrtos formats an address with utoa (decimal) and xtoa (lowercase hex)
into a thread-local buffer and, for IPv6, compresses the longest run of
consecutive zero groups to "::"; stonaddr splits a trailing /bits suffix,
sniffs the family from the first characters and delegates the address text
to the C library's inet_pton.  We model strings as character lists.
inet_pton is not repository code; it is embedded here from its standard
(glibc/POSIX) behavior: dotted decimal quads without leading zeros for
AF_INET, and groups of up to four hex digits with at most one "::" and an
optional trailing embedded dotted quad for AF_INET6 (exotic rejections,
such as an embedded quad before "::", are not modeled; no input in this
development exercises them).  The u16 view reads of naddrtos are the host
loads of a little-endian machine. -/

def digitsDec (n : Nat) : List Char := Nat.toDigits 10 n

def digitsHex (n : Nat) : List Char := Nat.toDigits 16 n

/-- Host (little-endian) load of the u16 view, word i. -/
def u16le (a : Netaddr) (i : Nat) : Nat := a.byte (2 * i) + 256 * a.byte (2 * i + 1)

/-- beswap16 of the u16 view on a little-endian host: the big-endian
value of the two bytes. -/
def u16be (a : Netaddr) (i : Nat) : Nat := 256 * a.byte (2 * i) + a.byte (2 * i + 1)

def u32zeroB (a : Netaddr) (w : Nat) : Bool :=
  (a.byte (4 * w) == 0) && (a.byte (4 * w + 1) == 0) &&
  (a.byte (4 * w + 2) == 0) && (a.byte (4 * w + 3) == 0)

/-- The dotted quad of four byte values, as printed by the utoa calls. -/
def dottedQuad (b0 b1 b2 b3 : Nat) : List Char :=
  digitsDec b0 ++ ['.'] ++ digitsDec b1 ++ ['.'] ++ digitsDec b2 ++ ['.'] ++ digitsDec b3

/-- The eight colon-separated hex groups of the typical IPv6 output. -/
def v6Groups (a : Netaddr) : List Char :=
  digitsHex (u16be a 0) ++ [':'] ++ digitsHex (u16be a 1) ++ [':'] ++
  digitsHex (u16be a 2) ++ [':'] ++ digitsHex (u16be a 3) ++ [':'] ++
  digitsHex (u16be a 4) ++ [':'] ++ digitsHex (u16be a 5) ++ [':'] ++
  digitsHex (u16be a 6) ++ [':'] ++ digitsHex (u16be a 7)

/-- Length of the run of characters in {':', '0'} starting here (the inner
counting loop of the compressor). -/
def zeroRun : List Char → Nat
  | [] => 0
  | c :: rest => if c = ':' ∨ c = '0' then zeroRun rest + 1 else 0

/-- The best/max scan of the compressor: consider position 0 and every
position holding ':'; keep the first position whose run beats the running
maximum (initially 2). -/
def compressScan (buf : List Char) : Nat × Nat :=
  (List.range buf.length).foldl
    (fun bm i =>
      if 0 < i ∧ buf.getD i ' ' ≠ ':' then bm
      else
        let n := zeroRun (buf.drop i)
        if bm.2 < n then (i, n) else bm)
    (0, 2)

/-- Replace the chosen run by "::" when it is longer than 3 characters. -/
def compressV6 (buf : List Char) : List Char :=
  let bm := compressScan buf
  if 3 < bm.2 then buf.take bm.1 ++ [':', ':'] ++ buf.drop (bm.1 + bm.2) else buf

/-- naddrtos.  For AF_INET6 the v4-mapped test compares the host u16 word 5
with 0xff (not 0xffff) and the branch prints bytes 0..3 (not 12..15),
exactly as the source does; the default family returns "invalid" without a
CIDR suffix. -/
def naddrtos (a : Netaddr) (cidr : Bool) : List Char :=
  let suffix := if cidr then '/' :: digitsDec a.bitlen else []
  if a.family = AF_INET then
    dottedQuad (a.byte 0) (a.byte 1) (a.byte 2) (a.byte 3) ++ suffix
  else if a.family = AF_INET6 then
    if u32zeroB a 0 && u32zeroB a 1 && (u16le a 4 == 0) && (u16le a 5 == 0xff) then
      [':', ':', 'f', 'f', 'f', 'f', ':'] ++
        dottedQuad (a.byte 0) (a.byte 1) (a.byte 2) (a.byte 3) ++ suffix
    else compressV6 (v6Groups a) ++ suffix
  else "invalid".toList

/-- saddrfamily: scan up to four characters for '.' or ':'; otherwise the
fifth character must be ':'. -/
def saddrfamilyGo : Nat → List Char → Nat
  | 0, rest => if rest.headD ' ' = ':' then AF_INET6 else AF_UNSPEC
  | _ + 1, [] => AF_UNSPEC
  | k + 1, c :: rest =>
      if c = '.' then AF_INET
      else if c = ':' then AF_INET6
      else saddrfamilyGo k rest

def saddrfamily (s : List Char) : Nat := saddrfamilyGo 4 s

/-- Index of the last '/' (strrchr). -/
def lastSlashIdx (s : List Char) : Option Nat :=
  match s.reverse.findIdx? (fun c => c = '/') with
  | some r => some (s.length - 1 - r)
  | none => none

/-- The strtol call of stonaddr on the text after '/': digits to the end of
the string (a sign or any trailing garbage makes stonaddr fail). -/
def parseDecAll (s : List Char) : Option Nat :=
  if s ≠ [] ∧ s.all (fun c => '0' ≤ c && c ≤ '9') then
    some (s.foldl (fun acc c => acc * 10 + (c.toNat - 48)) 0)
  else none

/-- One decimal octet of inet_pton(AF_INET): one to three digits, no
leading zero, value at most 255. -/
def parseDecOctet (s : List Char) : Option Nat :=
  if s = [] ∨ ¬ s.all (fun c => '0' ≤ c && c ≤ '9') then none
  else if 3 < s.length then none
  else if 1 < s.length ∧ s.headD '0' = '0' then none
  else
    let v := s.foldl (fun acc c => acc * 10 + (c.toNat - 48)) 0
    if v ≤ 255 then some v else none

/-- inet_pton(AF_INET): exactly four octets. -/
def inet_pton4 (s : List Char) : Option (List Nat) :=
  let parts := s.splitOn '.'
  if parts.length = 4 then parts.mapM parseDecOctet else none

def hexDigitVal (c : Char) : Option Nat :=
  if '0' ≤ c ∧ c ≤ '9' then some (c.toNat - 48)
  else if 'a' ≤ c ∧ c ≤ 'f' then some (c.toNat - 87)
  else if 'A' ≤ c ∧ c ≤ 'F' then some (c.toNat - 55)
  else none

/-- One IPv6 group: one to four hex digits. -/
def parseHexGroup (s : List Char) : Option Nat :=
  if s = [] ∨ 4 < s.length then none
  else
    s.foldl (fun acc c =>
      match acc, hexDigitVal c with
      | some a, some d => some (a * 16 + d)
      | _, _ => none) (some 0)

/-- Colon-separated groups to 16-bit words; the final group may be an
embedded dotted quad, contributing two words. -/
def parseGroups : List (List Char) → Option (List Nat)
  | [] => some []
  | [g] =>
      if '.' ∈ g then
        match inet_pton4 g with
        | some bs => some [256 * bs.getD 0 0 + bs.getD 1 0,
                           256 * bs.getD 2 0 + bs.getD 3 0]
        | none => none
      else (parseHexGroup g).map (fun w => [w])
  | g :: g2 :: rest =>
      match parseHexGroup g, parseGroups (g2 :: rest) with
      | some w, some ws => some (w :: ws)
      | _, _ => none

def wordsToBytes (ws : List Nat) : List Nat :=
  ws.flatMap (fun w => [w / 256, w % 256])

/-- inet_pton(AF_INET6): at most one "::", eight 16-bit words in total. -/
def inet_pton6 (s : List Char) : Option (List Nat) :=
  if s = [':', ':'] then some (List.replicate 16 0)
  else
    let pieces := s.splitOn ':'
    match pieces.findIdx? (fun p => p.isEmpty) with
    | none =>
        match parseGroups pieces with
        | some ws => if ws.length = 8 then some (wordsToBytes ws) else none
        | none => none
    | some i =>
        let n := pieces.length
        let left := pieces.take i
        let rightOpt : Option (List (List Char)) :=
          if i = 0 then
            if (pieces.getD 1 []).isEmpty then some (pieces.drop 2) else none
          else if ¬ (pieces.getD (n - 1) []).isEmpty then some (pieces.drop (i + 1))
          else if i = n - 2 then some []
          else none
        match rightOpt with
        | none => none
        | some right =>
            if right.any (fun p => p.isEmpty) then none
            else
              match parseGroups left, parseGroups right with
              | some wl, some wr =>
                  if wl.length + wr.length ≤ 7 then
                    some (wordsToBytes
                      (wl ++ List.replicate (8 - wl.length - wr.length) 0 ++ wr))
                  else none
              | _, _ => none

/-- stonaddr: split the optional /bits, sniff the family, validate the bit
length, parse the address text, zero the remaining storage. -/
def stonaddr (s : List Char) : Option Netaddr :=
  let af := saddrfamily s
  let maxbitlen := if af = AF_INET6 then 128 else 32
  let split :=
    match lastSlashIdx s with
    | some i => (s.take i, some (s.drop (i + 1)))
    | none => (s, none)
  let bitlenOpt :=
    match split.2 with
    | some bs =>
        match parseDecAll bs with
        | some v => if v ≤ maxbitlen then some v else none
        | none => none
    | none => some maxbitlen
  match bitlenOpt with
  | none => none
  | some bitlen =>
      if af = AF_INET then
        match inet_pton4 split.1 with
        | some bs => some ⟨AF_INET, bitlen, bs ++ List.replicate 12 0⟩
        | none => none
      else if af = AF_INET6 then
        match inet_pton6 split.1 with
        | some bs => some ⟨AF_INET6, bitlen, bs⟩
        | none => none
      else none

/-- An IPv6 address satisfying the buggy v4-mapped test of naddrtos on a
little-endian host: bytes 0..9 zero, byte 10 = 0xff, byte 11 = 0 (so the
host u16 word 5 equals 0xff), and a non-zero tail 1.2.3.4. -/
def pMapped : Netaddr := ⟨AF_INET6, 128, [0, 0, 0, 0, 0, 0, 0, 0, 0, 0, 255, 0, 1, 2, 3, 4]⟩

/-- C9, code bug: the v4-mapped branch of naddrtos tests u16[5] == 0xff
(instead of 0xffff) and prints bytes 0..3 (instead of 12..15), so pMapped
is formatted as ::ffff:0.0.0.0/128, which parses back to a different
address (bytes 10 and 11 become 0xff 0xff and the tail is lost): the
claimed parse/format round trip fails for v6. -/
theorem naddrtos_mapped_roundtrip_bug :
    pMapped.family = AF_INET6 ∧ pMapped.bitlen ≤ 128 ∧
    naddrtos pMapped true = "::ffff:0.0.0.0/128".toList ∧
    stonaddr (naddrtos pMapped true) =
      some ⟨AF_INET6, 128, [0, 0, 0, 0, 0, 0, 0, 0, 0, 0, 255, 255, 0, 0, 0, 0]⟩ ∧
    stonaddr (naddrtos pMapped true) ≠ some pMapped := by decide

/-- Sanity: the round trip does hold on representative well-formed
addresses that avoid the buggy mapped branch. -/
theorem naddrtos_roundtrip_samples :
    stonaddr (naddrtos (pfx4 10 0 0 0 8) true) = some (pfx4 10 0 0 0 8) ∧
    stonaddr (naddrtos (pfx4 192 0 2 1 24) true) = some (pfx4 192 0 2 1 24) ∧
    stonaddr (naddrtos (⟨AF_INET6, 64,
        [32, 1, 13, 184, 0, 0, 0, 0, 0, 0, 0, 0, 0, 0, 0, 1]⟩ : Netaddr) true) =
      some ⟨AF_INET6, 64, [32, 1, 13, 184, 0, 0, 0, 0, 0, 0, 0, 0, 0, 0, 0, 1]⟩ ∧
    stonaddr (naddrtos (⟨AF_INET6, 128, List.replicate 16 0⟩ : Netaddr) true) =
      some ⟨AF_INET6, 128, List.replicate 16 0⟩ := by decide
